import Mathlib

/-!
Shallow embedding of `boggle.py` (classes `BoggleBoard` and `BoggleGame`):
the grid model (neighbor map, letter-occurrence lookup) and the path-search
engine (`check_word_on_board` / `recursive_string_search`), together with the
construction-time validation of `BoggleBoard.__init__`.

Python exceptions are modelled with `Except`; the mutable `letter_list`
(mutated in place by `letter_list.pop(0)`) is modelled by threading the list
through the search and returning its final state.
-/

/-- Runtime errors the embedded code can raise. -/
inductive PyErr where
  | indexError
  | attributeError
deriving DecidableEq

/-- Validation errors raised by `BoggleBoard.__init__` (Python `InitError`). -/
inductive InitError where
  | invalidSize       -- "Invalid board size" (non-integer `size`)
  | invalidChars      -- "Invalid input character list" (`letters.isalpha()` false)
  | lengthMismatch    -- "Input character list length does not match board size"
deriving DecidableEq

instance {ε α : Type} [DecidableEq ε] [DecidableEq α] : DecidableEq (Except ε α) := fun a b =>
  match a, b with
  | .ok x, .ok y =>
    if h : x = y then .isTrue (by rw [h]) else .isFalse (fun hc => by cases hc; exact h rfl)
  | .error x, .error y =>
    if h : x = y then .isTrue (by rw [h]) else .isFalse (fun hc => by cases hc; exact h rfl)
  | .ok _, .error _ => .isFalse (fun hc => by cases hc)
  | .error _, .ok _ => .isFalse (fun hc => by cases hc)

/-- The board state used by the game methods: `self.size` and `self.board`. -/
structure BoggleBoard where
  size : Nat
  board : List (List Char)
deriving DecidableEq

/-- `BoggleBoard.get_letter_at_position`: `self.board[i_row][j_col]`.
All call sites in the search pass in-bounds indices of a `size`×`size` board,
so the out-of-bounds default is never consulted there. -/
def getLetterAtPosition (bb : BoggleBoard) (i_row j_col : Nat) : Char :=
  (bb.board.getD i_row []).getD j_col default

/-- `BoggleBoard.build_neighbor_map`: the 8 compass entries, in the source's
dict-insertion order (left, right, up, down, d-up-left, d-up-right,
d-down-left, d-down-right), `none` where the direction leaves the grid. -/
def buildNeighborMap (size i_row j_col : Nat) : List (Option (Nat × Nat)) :=
  let idx_edge := size - 1
  [ if 0 < j_col then some (i_row, j_col - 1) else none,
    if j_col < idx_edge then some (i_row, j_col + 1) else none,
    if 0 < i_row then some (i_row - 1, j_col) else none,
    if i_row < idx_edge then some (i_row + 1, j_col) else none,
    if 0 < i_row ∧ 0 < j_col then some (i_row - 1, j_col - 1) else none,
    if 0 < i_row ∧ j_col < idx_edge then some (i_row - 1, j_col + 1) else none,
    if i_row < idx_edge ∧ 0 < j_col then some (i_row + 1, j_col - 1) else none,
    if i_row < idx_edge ∧ j_col < idx_edge then some (i_row + 1, j_col + 1) else none ]

/-- `BoggleBoard.nearest_neighbor_data`: skip the `None` entries and pair each
valid neighbor position with its letter.  The Python dict is keyed by the
position tuples, which are pairwise distinct, so an ordered association list
is a faithful model (insertion order = the `build_neighbor_map` order). -/
def nearestNeighborData (bb : BoggleBoard) (i_row j_col : Nat) :
    List ((Nat × Nat) × Char) :=
  (buildNeighborMap bb.size i_row j_col).filterMap
    (fun o => o.map (fun p => (p, getLetterAtPosition bb p.1 p.2)))

/-- `BoggleBoard.positions_for_letter`: nested `enumerate` scan appending
`(i, j)` whenever `board[i][j] == letter`. -/
def positionsForLetter (bb : BoggleBoard) (letter : Char) : List (Nat × Nat) :=
  bb.board.enum.flatMap
    (fun ir => ir.2.enum.filterMap
      (fun jc => if jc.2 = letter then some (ir.1, jc.1) else none))

/-- `BoggleGame.recursive_string_search`.  The Python list `letter_list` is
mutated in place (`pop(0)`), so the final list state is returned alongside the
boolean.  `pop` on an empty list and `letter_list[0]` on the emptied list both
raise `IndexError`.  The membership test `next_letter not in nn_letters`
mirrors the source; the `for`-loop returns at the first neighbor whose letter
equals `next_letter`, modelled by `List.find?` (its `none` branch is
unreachable once the membership test has succeeded). -/
def recursiveStringSearch (bb : BoggleBoard) (i_row j_col : Nat)
    (letter_list : List Char) : Except PyErr (Bool × List Char) :=
  match letter_list with
  | [] => .error .indexError          -- letter_list.pop(0) on an empty list
  | _current :: rest =>
    match rest with
    | [] => .error .indexError        -- letter_list[0] right after the pop
    | next :: _t =>
      let nn_data := nearestNeighborData bb i_row j_col
      if (nn_data.map Prod.snd).contains next then
        match nn_data.find? (fun pl => pl.2 == next) with
        | some (t_pos, _) =>
          if rest.length = 1 then .ok (true, rest)
          else recursiveStringSearch bb t_pos.1 t_pos.2 rest
        | none => .ok (false, rest)
      else
        .ok (false, rest)

/-- The `for (i_row, j_col) in start_positions` loop of
`BoggleGame.check_word_on_board`: `status` starts `False`, each iteration
overwrites it, and the loop breaks on the first `True`.  The single Python
list object `letter_list` is passed to every attempt, so the letters popped by
a failed attempt stay popped for the next one. -/
def checkWordLoop (bb : BoggleBoard) (starts : List (Nat × Nat))
    (letter_list : List Char) : Except PyErr Bool :=
  match starts with
  | [] => .ok false
  | (i_row, j_col) :: restStarts =>
    match recursiveStringSearch bb i_row j_col letter_list with
    | .error e => .error e
    | .ok (true, _) => .ok true
    | .ok (false, letter_list') => checkWordLoop bb restStarts letter_list'

/-- `BoggleGame.check_word_on_board`: `letter_list = list(word)`, then try
every start position returned by `positions_for_letter(word[0])`
(`letter_list[0]` on an empty word raises `IndexError`). -/
def checkWordOnBoard (bb : BoggleBoard) (word : List Char) : Except PyErr Bool :=
  match word with
  | [] => .error .indexError
  | first :: _ => checkWordLoop bb (positionsForLetter bb first) word

/-! ### `BoggleBoard.__init__` (construction-time validation) -/

/-- The value passed as the `size` keyword argument: either a Python `int`
or some value of another type (failing `isinstance(self.size, int)`). -/
inductive PySizeArg where
  | int (n : Int)
  | nonInt
deriving DecidableEq

/-- Python `str.isalpha`: false on the empty string, otherwise true iff every
character is alphabetic (restricted to ASCII letters in this embedding). -/
def pyIsAlpha (s : String) : Bool :=
  !s.isEmpty && s.toList.all (fun c => c.isAlpha)

/-- The attributes `__init__` assigns on success: `self.size`,
`self.letter_list`, `self.board`, `self.letters`. -/
structure InitState where
  size : Int
  letter_list : List Char
  board : List (List Char)
  letters : String
deriving DecidableEq

/-- `BoggleBoard.build_letter_list`: the supplied letters when truthy
(non-`None` and non-empty), otherwise a weighted random draw, which this
embedding abstracts as the parameter `randomDraw`. -/
def buildLetterList (letters : Option String) (randomDraw : List Char) : List Char :=
  match letters with
  | some s => if s = "" then randomDraw else s.toList
  | none => randomDraw

/-- `BoggleBoard.build_board`:
`[letter_list[i:i+size] for i in range(0, len(letter_list), size)]`.
A negative step makes `range(0, n, step)` empty; a zero step would raise, but
`build_board` is only reached with a nonzero `size` on the validated
supplied-letters path considered here. -/
def buildBoard (letter_list : List Char) (size : Int) : List (List Char) :=
  if size ≤ 0 then []
  else
    let s := size.toNat
    ((List.range letter_list.length).filter (fun i => i % s == 0)).map
      (fun i => (letter_list.drop i).take s)

/-- `BoggleBoard.__init__`: default `size = 5`; a non-`int` size raises
`InitError`; a supplied letter string must pass `isalpha()` and have length
`size**2`, else `InitError`; on success the board is built from the letter
list.  `randomDraw` stands for the weighted random draw used when no (truthy)
letters are supplied. -/
def boggleBoardInit (sizeArg : Option PySizeArg) (lettersArg : Option String)
    (randomDraw : List Char) : Except InitError InitState :=
  match sizeArg with
  | some .nonInt => .error .invalidSize
  | _ =>
    let size : Int :=
      match sizeArg with
      | some (.int n) => n
      | _ => 5
    match lettersArg with
    | some s =>
      if !(pyIsAlpha s) then .error .invalidChars
      else if (s.toList.length : Int) ≠ size ^ 2 then .error .lengthMismatch
      else
        let ll := buildLetterList (some s) randomDraw
        .ok ⟨size, ll, buildBoard ll size, String.mk ll⟩
    | none =>
      let ll := buildLetterList none randomDraw
      .ok ⟨size, ll, buildBoard ll size, String.mk ll⟩

/-- The effective `self.size` value of `__init__`: the supplied integer, or
the default 5 (meaningless for a non-integer argument, which raises). -/
def pySizeVal (sizeArg : Option PySizeArg) : Int :=
  match sizeArg with
  | some (.int n) => n
  | _ => 5

/-! ### A specification-side notion of a trace (from the spec's glossary:
"Trace / Path: a sequence of pairwise-adjacent Positions whose letters spell a
given word in order").  Used to state what the search *should* find; it is not
part of the embedded code. -/

/-- The letter at a position, `none` when out of bounds. -/
def cellAt (g : List (List Char)) (p : Nat × Nat) : Option Char :=
  (g[p.1]?).bind (fun row => row[p.2]?)

/-- Boggle adjacency: distinct cells whose row and column indices each differ
by at most 1 (the 4 orthogonal plus 4 diagonal directions). -/
def Adjacent (p q : Nat × Nat) : Prop :=
  p ≠ q ∧ Nat.dist p.1 q.1 ≤ 1 ∧ Nat.dist p.2 q.2 ≤ 1

instance : DecidableRel Adjacent := fun p q =>
  inferInstanceAs (Decidable (p ≠ q ∧ Nat.dist p.1 q.1 ≤ 1 ∧ Nat.dist p.2 q.2 ≤ 1))

/-- Consecutive positions of the sequence are pairwise adjacent. -/
def PathChain : List (Nat × Nat) → Prop
  | [] => True
  | [_] => True
  | p :: q :: rest => Adjacent p q ∧ PathChain (q :: rest)

instance instDecidablePathChain : (tr : List (Nat × Nat)) → Decidable (PathChain tr)
  | [] => inferInstanceAs (Decidable True)
  | [_] => inferInstanceAs (Decidable True)
  | p :: q :: rest =>
    haveI := instDecidablePathChain (q :: rest)
    inferInstanceAs (Decidable (Adjacent p q ∧ PathChain (q :: rest)))

/-- `Spells g w tr`: the position sequence `tr` spells the word `w` on grid
`g` as a path of pairwise-adjacent cells. -/
def Spells (g : List (List Char)) (w : List Char) (tr : List (Nat × Nat)) : Prop :=
  tr.length = w.length ∧ PathChain tr ∧
    ∀ pc ∈ tr.zip w, cellAt g pc.1 = some pc.2

instance (g : List (List Char)) (w : List Char) (tr : List (Nat × Nat)) :
    Decidable (Spells g w tr) :=
  inferInstanceAs (Decidable (tr.length = w.length ∧ PathChain tr ∧
    ∀ pc ∈ tr.zip w, cellAt g pc.1 = some pc.2))

/-! ### State-threaded variants of the search (for the frame property).
Every board access of the Python code reads `self` and writes nothing; the
variants below make that explicit by passing the board state through each
primitive and returning it. -/

/-- `get_letter_at_position` as a state-passing read. -/
def getLetterAtPositionS (bb : BoggleBoard) (i_row j_col : Nat) : Char × BoggleBoard :=
  ((bb.board.getD i_row []).getD j_col default, bb)

/-- `nearest_neighbor_data` as a state-passing loop over the neighbor map,
reading one letter per valid neighbor. -/
def nearestNeighborDataS (bb : BoggleBoard) (i_row j_col : Nat) :
    List ((Nat × Nat) × Char) × BoggleBoard :=
  (buildNeighborMap bb.size i_row j_col).foldl
    (fun acc o =>
      match o with
      | some p =>
        let (c, b') := getLetterAtPositionS acc.2 p.1 p.2
        (acc.1 ++ [(p, c)], b')
      | none => acc)
    ([], bb)

/-- `positions_for_letter` as a state-passing read (the scan only reads
`self.board`). -/
def positionsForLetterS (bb : BoggleBoard) (letter : Char) :
    List (Nat × Nat) × BoggleBoard :=
  (positionsForLetter bb letter, bb)

/-- `recursive_string_search`, threading the board state. -/
def recursiveStringSearchS (bb : BoggleBoard) (i_row j_col : Nat)
    (letter_list : List Char) : Except PyErr (Bool × List Char) × BoggleBoard :=
  match letter_list with
  | [] => (.error .indexError, bb)
  | _current :: rest =>
    match rest with
    | [] => (.error .indexError, bb)
    | next :: _t =>
      let (nn_data, b1) := nearestNeighborDataS bb i_row j_col
      if (nn_data.map Prod.snd).contains next then
        match nn_data.find? (fun pl => pl.2 == next) with
        | some (t_pos, _) =>
          if rest.length = 1 then (.ok (true, rest), b1)
          else recursiveStringSearchS b1 t_pos.1 t_pos.2 rest
        | none => (.ok (false, rest), b1)
      else
        (.ok (false, rest), b1)

/-- The start-position loop of `check_word_on_board`, threading the board. -/
def checkWordLoopS (bb : BoggleBoard) (starts : List (Nat × Nat))
    (letter_list : List Char) : Except PyErr Bool × BoggleBoard :=
  match starts with
  | [] => (.ok false, bb)
  | (i_row, j_col) :: restStarts =>
    match recursiveStringSearchS bb i_row j_col letter_list with
    | (.error e, b') => (.error e, b')
    | (.ok (true, _), b') => (.ok true, b')
    | (.ok (false, letter_list'), b') => checkWordLoopS b' restStarts letter_list'

/-- `check_word_on_board`, threading the board state through every read. -/
def checkWordOnBoardS (bb : BoggleBoard) (word : List Char) :
    Except PyErr Bool × BoggleBoard :=
  match word with
  | [] => (.error .indexError, bb)
  | first :: _ =>
    let (starts, b1) := positionsForLetterS bb first
    checkWordLoopS b1 starts word

/-! ### `nearest_neighbor_letters` and Python attribute access.
Line 201 of the source reads `self.nearest_neighbor_data.values()`: the
attribute `self.nearest_neighbor_data` evaluates to the *bound method* object
(it is never called), and `.values` is then looked up on that method object,
which raises `AttributeError`. -/

/-- A Python value on which `.values()` might be taken: the dict a call of
`nearest_neighbor_data(...)` would return, or the bound method object that
the plain attribute `self.nearest_neighbor_data` evaluates to. -/
inductive PyAttrVal where
  | dict (entries : List ((Nat × Nat) × Char))
  | boundMethod
deriving DecidableEq

/-- `.values()` on a Python value: dicts yield their values; a bound-method
object has no `values` attribute, so the lookup raises `AttributeError`. -/
def pyValuesAttr : PyAttrVal → Except PyErr (List Char)
  | .dict entries => .ok (entries.map Prod.snd)
  | .boundMethod => .error .attributeError

/-- `BoggleBoard.nearest_neighbor_letters`: evaluates the attribute
`self.nearest_neighbor_data` (a bound method, since no call parentheses are
written) and takes `.values()` on it. -/
def nearestNeighborLetters (bb : BoggleBoard) (i_row j_col : Nat) :
    Except PyErr (List Char) :=
  let attr := PyAttrVal.boundMethod
  pyValuesAttr attr

/-- Row-major enumeration of all cell positions of a grid (the spec's
"row-major scan order"), used to state the order of `positions_for_letter`. -/
def rowMajorPositions (g : List (List Char)) : List (Nat × Nat) :=
  g.enum.flatMap (fun ir => ir.2.enum.map (fun jc => (ir.1, jc.1)))

/-! ### Concrete boards used in the theorems below -/

/-- The 4×4 grid of the spec's scenarios 1–3. -/
def scenarioBoard : BoggleBoard :=
  ⟨4, [['c','a','t','s'], ['o','x','x','x'], ['x','x','x','x'], ['x','x','x','x']]⟩

/-- A 4×4 grid with two `c` cells: the word "cat" is traceable from the
second `c` at (3,0) but not from the first at (0,0). -/
def twoStartBoard : BoggleBoard :=
  ⟨4, [['c','x','x','x'], ['x','x','x','x'], ['x','x','x','x'], ['c','a','t','x']]⟩

/-- A 2×2 grid with a single `a` cell adjacent to a `b` cell. -/
def oscBoard : BoggleBoard :=
  ⟨2, [['a','b'], ['x','y']]⟩

/-- A 3×3 grid where, from the `c` at (0,0), two neighbors hold the needed
`a`: the right neighbor (0,1) (tried first, a dead end for "cat") and the
down neighbor (1,0) (which would reach the `t` at (2,0)). -/
def deadEndBoard : BoggleBoard :=
  ⟨3, [['c','a','x'], ['a','x','x'], ['t','x','x']]⟩

/-- A plain 2×2 grid with four distinct letters. -/
def smallBoard : BoggleBoard :=
  ⟨2, [['a','b'], ['c','d']]⟩

/-- A plain 3×3 grid with nine distinct letters. -/
def demoBoard3 : BoggleBoard :=
  ⟨3, [['a','b','c'], ['d','e','f'], ['g','h','i']]⟩

/-! ## Claim theorems -/

/-- Claim C10: for every board and every row/column index pair, the public
method `nearest_neighbor_letters` raises `AttributeError` instead of
returning the neighbor letters, because it takes `.values()` on the bound
method `nearest_neighbor_data` without calling it; the error is reached on
every invocation. -/
theorem c10_nearest_neighbor_letters_attribute_error
    (bb : BoggleBoard) (i_row j_col : Nat) :
    nearestNeighborLetters bb i_row j_col = .error .attributeError := rfl

/-- Claim C6: on the fixed 4×4 scenario grid, `check_word_on_board` returns
true for "cat" (which the path (0,0)→(0,1)→(0,2) spells) and for "cats"
(path (0,0)→(0,1)→(0,2)→(0,3)), and false for "cot". -/
theorem c6_scenario_grid_cat_cats_cot :
    checkWordOnBoard scenarioBoard "cat".toList = .ok true ∧
    Spells scenarioBoard.board "cat".toList [(0,0), (0,1), (0,2)] ∧
    checkWordOnBoard scenarioBoard "cats".toList = .ok true ∧
    Spells scenarioBoard.board "cats".toList [(0,0), (0,1), (0,2), (0,3)] ∧
    checkWordOnBoard scenarioBoard "cot".toList = .ok false := by
  refine ⟨by decide, by decide, by decide, by decide, by decide⟩

/-- Claim C1 (code bug): on `twoStartBoard` the word "cat" is fully traceable
from the second `c` at (3,0) — a fresh search from (3,0) succeeds, and
(3,0)→(3,1)→(3,2) spells it — yet `check_word_on_board` returns false,
because the first (failed) start attempt popped letters from the single
shared `letter_list`, so the second attempt no longer searches the whole
word. -/
theorem c1_shared_letter_list_misses_second_start :
    checkWordOnBoard twoStartBoard "cat".toList = .ok false ∧
    recursiveStringSearch twoStartBoard 3 0 "cat".toList = .ok (true, ['t']) ∧
    Spells twoStartBoard.board "cat".toList [(3,0), (3,1), (3,2)] := by
  refine ⟨by decide, by decide, by decide⟩

/-- Helper for C8: on `oscBoard` the letter `a` occurs only at (0,0). -/
theorem oscBoard_cell_a (p : Nat × Nat) (h : cellAt oscBoard.board p = some 'a') :
    p = (0, 0) := by
  rcases p with ⟨i, j⟩
  rcases i with _ | _ | i <;> rcases j with _ | _ | j <;>
    simp_all [cellAt, oscBoard]

/-- Claim C8: the search keeps no visited set: on the 2×2 board with a single
`a` adjacent to a `b`, `check_word_on_board` accepts "aba" although every
trace of "aba" must use the unique `a` cell twice. -/
theorem c8_no_visited_tracking_aba :
    checkWordOnBoard oscBoard ['a', 'b', 'a'] = .ok true ∧
    ∀ tr, Spells oscBoard.board ['a', 'b', 'a'] tr → ¬ tr.Nodup := by
  refine ⟨by decide, ?_⟩
  rintro tr ⟨hlen, _hchain, hcells⟩
  rcases tr with _ | ⟨p0, _ | ⟨p1, _ | ⟨p2, _ | ⟨p3, tl⟩⟩⟩⟩ <;> simp at hlen
  have h0 : cellAt oscBoard.board p0 = some 'a' := hcells (p0, 'a') (by simp)
  have h2 : cellAt oscBoard.board p2 = some 'a' := hcells (p2, 'a') (by simp)
  have e0 := oscBoard_cell_a p0 h0
  have e2 := oscBoard_cell_a p2 h2
  subst e0; subst e2
  simp [List.nodup_cons]

/-- Helper for C2: with at least two letters left, `recursive_string_search`
returns a boolean (it never raises): the two `IndexError` sites need an empty
or singleton list, and the recursion only proceeds on lists of length ≥ 2. -/
theorem recursiveStringSearch_total :
    ∀ (letter_list : List Char) (bb : BoggleBoard) (i_row j_col : Nat),
      2 ≤ letter_list.length →
      ∃ (b : Bool) (rest' : List Char),
        recursiveStringSearch bb i_row j_col letter_list = .ok (b, rest') := by
  intro ll
  induction ll with
  | nil => intro bb i j h; simp at h
  | cons cur rest ih =>
    intro bb i j h
    rcases rest with _ | ⟨next, t⟩
    · simp at h
    · rw [recursiveStringSearch]
      cases hco : ((nearestNeighborData bb i j).map Prod.snd).contains next
      · exact ⟨false, next :: t, by simp [hco]⟩
      · simp only [hco]
        rcases hf : (nearestNeighborData bb i j).find? (fun pl => pl.2 == next) with
          _ | ⟨t_pos, c⟩
        · exact ⟨false, next :: t, by simp [hf]⟩
        · rcases t with _ | ⟨c2, t'⟩
          · exact ⟨true, [next], by simp [hf]⟩
          · obtain ⟨b, r', hr⟩ := ih bb t_pos.1 t_pos.2 (by simp)
            exact ⟨b, r', by simp [hf]; exact hr⟩

/-- Claim C2 (amended): for every word of length ≥ 2 whose first letter
occurs at most once on the board, the path search returns a boolean and never
raises ("not traceable" is the normal `false` result).  (As stated for all
words of length ≥ 1 the claim fails: see the one-letter counterexample.) -/
theorem c2_search_total_on_single_start (bb : BoggleBoard) (first : Char)
    (rest : List Char) (hrest : rest ≠ [])
    (hstarts : (positionsForLetter bb first).length ≤ 1) :
    ∃ b : Bool, checkWordOnBoard bb (first :: rest) = .ok b := by
  rw [checkWordOnBoard]
  rcases hsp : positionsForLetter bb first with _ | ⟨⟨i, j⟩, starts'⟩
  · exact ⟨false, by rw [checkWordLoop]⟩
  · have hs' : starts' = [] := by
      rw [hsp] at hstarts; simpa using hstarts
    subst hs'
    have hlen : 2 ≤ (first :: rest).length := by
      rcases rest with _ | _ <;> simp_all
    obtain ⟨b, r', hr⟩ := recursiveStringSearch_total (first :: rest) bb i j hlen
    cases b
    · exact ⟨false, by rw [checkWordLoop, hr]; rfl⟩
    · exact ⟨true, by rw [checkWordLoop, hr]⟩

/-- Witness for C2: on the 2×2 board `smallBoard` the word "ab" has a single
start position and the search returns a boolean. -/
theorem c2_search_total_on_single_start_witness :
    (['b'] : List Char) ≠ [] ∧ (positionsForLetter smallBoard 'a').length ≤ 1 ∧
    ∃ b : Bool, checkWordOnBoard smallBoard ['a', 'b'] = .ok b :=
  ⟨by decide, by decide,
    c2_search_total_on_single_start smallBoard 'a' ['b'] (by decide) (by decide)⟩

/-- Counterexample for C2 as stated: the one-letter word "a", whose letter
does occur on `smallBoard`, makes the search raise `IndexError` instead of
returning a boolean (`letter_list[0]` after the pop empties the list). -/
theorem c2_counterexample_one_letter_word :
    checkWordOnBoard smallBoard ['a'] = .error .indexError := by decide

/-- Helper for C7: the state-passing neighbor-data loop returns the board
unchanged and computes `nearestNeighborData`. -/
theorem nearestNeighborDataS_foldl (bb : BoggleBoard) :
    ∀ (l : List (Option (Nat × Nat))) (acc : List ((Nat × Nat) × Char)),
      (l.foldl
        (fun acc o =>
          match o with
          | some p =>
            let (c, b') := getLetterAtPositionS acc.2 p.1 p.2
            (acc.1 ++ [(p, c)], b')
          | none => acc)
        (acc, bb))
      = (acc ++ l.filterMap
            (fun o => o.map (fun p => (p, getLetterAtPosition bb p.1 p.2))), bb) := by
  intro l
  induction l with
  | nil => intro acc; simp
  | cons o l' ih =>
    intro acc
    cases o with
    | none => simpa using ih acc
    | some p =>
      rw [List.foldl_cons]
      exact (ih (acc ++ [(p, getLetterAtPosition bb p.1 p.2)])).trans (by simp)

/-- Helper for C7: `nearestNeighborDataS` only reads the board. -/
theorem nearestNeighborDataS_eq (bb : BoggleBoard) (i_row j_col : Nat) :
    nearestNeighborDataS bb i_row j_col = (nearestNeighborData bb i_row j_col, bb) := by
  unfold nearestNeighborDataS nearestNeighborData
  simpa using nearestNeighborDataS_foldl bb (buildNeighborMap bb.size i_row j_col) []

/-- Helper for C7: the state-passing search equals the plain search and
returns the board unchanged. -/
theorem recursiveStringSearchS_eq :
    ∀ (letter_list : List Char) (bb : BoggleBoard) (i_row j_col : Nat),
      recursiveStringSearchS bb i_row j_col letter_list
        = (recursiveStringSearch bb i_row j_col letter_list, bb) := by
  intro ll
  induction ll with
  | nil => intro bb i j; rfl
  | cons cur rest ih =>
    intro bb i j
    rcases rest with _ | ⟨next, t⟩
    · rfl
    · rw [recursiveStringSearchS, recursiveStringSearch, nearestNeighborDataS_eq]
      dsimp only
      cases hco : ((nearestNeighborData bb i j).map Prod.snd).contains next
      · rfl
      · rcases hf : (nearestNeighborData bb i j).find? (fun pl => pl.2 == next) with
          _ | ⟨t_pos, c⟩ <;> rw [hf]
        · rfl
        · rcases t with _ | ⟨c2, t'⟩
          · rfl
          · exact ih bb t_pos.1 t_pos.2

/-- Helper for C7: the start-position loop equals its plain version and
returns the board unchanged. -/
theorem checkWordLoopS_eq :
    ∀ (starts : List (Nat × Nat)) (bb : BoggleBoard) (letter_list : List Char),
      checkWordLoopS bb starts letter_list
        = (checkWordLoop bb starts letter_list, bb) := by
  intro starts
  induction starts with
  | nil => intro bb ll; rfl
  | cons s starts' ih =>
    intro bb ll
    rcases s with ⟨i, j⟩
    rw [checkWordLoopS, checkWordLoop, recursiveStringSearchS_eq]
    rcases hr : recursiveStringSearch bb i j ll with e | ⟨b, ll'⟩
    · rfl
    · cases b
      · simpa using ih bb ll'
      · rfl

/-- Helper for C7: `checkWordOnBoardS` equals the plain `checkWordOnBoard`
and returns the board unchanged. -/
theorem checkWordOnBoardS_eq (bb : BoggleBoard) (word : List Char) :
    checkWordOnBoardS bb word = (checkWordOnBoard bb word, bb) := by
  rcases word with _ | ⟨first, rest⟩
  · rfl
  · rw [checkWordOnBoardS, checkWordOnBoard]
    simpa [positionsForLetterS] using
      checkWordLoopS_eq (positionsForLetter bb first) bb (first :: rest)

/-- Claim C7: `check_word_on_board` never mutates the grid: threading the
board state through every read returns the board identical to the input, the
result agrees with the pure function of grid and word, and a repeated call on
the resulting board state returns the same answer. -/
theorem c7_check_word_pure_and_idempotent (bb : BoggleBoard) (word : List Char) :
    (checkWordOnBoardS bb word).2 = bb ∧
    (checkWordOnBoardS bb word).1 = checkWordOnBoard bb word ∧
    (checkWordOnBoardS bb word).1
      = (checkWordOnBoardS (checkWordOnBoardS bb word).2 word).1 := by
  simp [checkWordOnBoardS_eq]

/-- Claim C3: at each step the search examines the neighbors in the fixed
order left, right, up, down, up-left, up-right, down-left, down-right (the
order of `nearestNeighborData`), and commits to the first neighbor carrying
the needed letter: whenever the neighbor list splits as `pre ++ (t_pos,
next) :: post` with no match in `pre`, the result is completely determined by
`t_pos` — success if the word is exhausted, otherwise the recursive search
from `t_pos` — regardless of any further matching neighbor in `post`. -/
theorem c3_first_match_commit (bb : BoggleBoard) (i_row j_col : Nat)
    (cur next : Char) (t : List Char)
    (pre post : List ((Nat × Nat) × Char)) (t_pos : Nat × Nat)
    (hnn : nearestNeighborData bb i_row j_col = pre ++ (t_pos, next) :: post)
    (hpre : ∀ q ∈ pre, q.2 ≠ next) :
    recursiveStringSearch bb i_row j_col (cur :: next :: t)
      = if t = [] then .ok (true, next :: t)
        else recursiveStringSearch bb t_pos.1 t_pos.2 (next :: t) := by
  have hco : ((nearestNeighborData bb i_row j_col).map Prod.snd).contains next = true := by
    rw [hnn]
    simp [List.contains_eq_any_beq]
  have hfind : (nearestNeighborData bb i_row j_col).find? (fun pl => pl.2 == next)
      = some (t_pos, next) := by
    rw [hnn, List.find?_append]
    have hnone : pre.find? (fun pl => pl.2 == next) = none := by
      rw [List.find?_eq_none]
      intro q hq
      simpa using hpre q hq
    rw [hnone, List.find?_cons_of_pos _ (by simp)]
    rfl
  rw [recursiveStringSearch]
  rw [hco, if_pos rfl, hfind]
  rcases t with _ | ⟨c2, t'⟩ <;> rfl

/-- Witness for C3: on `deadEndBoard`, from (0,0) the first matching neighbor
for the `a` of "cat" is (0,1), so the search commits there (and fails), even
though the matching neighbor (1,0) would have led to the trace
(0,0)→(1,0)→(2,0) of "cat". -/
theorem c3_first_match_commit_witness :
    recursiveStringSearch deadEndBoard 0 0 ['c', 'a', 't']
        = recursiveStringSearch deadEndBoard 0 1 ['a', 't'] ∧
    checkWordOnBoard deadEndBoard ['c', 'a', 't'] = .ok false ∧
    Spells deadEndBoard.board ['c', 'a', 't'] [(0,0), (1,0), (2,0)] := by
  refine ⟨?_, by decide, by decide⟩
  have h := c3_first_match_commit deadEndBoard 0 0 'c' 'a' ['t']
    [] [((1,0), 'a'), ((1,1), 'x')] (0,1) (by decide) (by simp)
  simpa using h

/-- Claim C4: in an N×N grid with N ≥ 2, the valid-neighbor list of a
position has exactly 3 entries at a corner, 5 on an edge (non-corner) cell,
and 8 at an interior cell. -/
theorem c4_neighbor_counts (bb : BoggleBoard) (i_row j_col : Nat)
    (hN : 2 ≤ bb.size) (hi : i_row < bb.size) (hj : j_col < bb.size) :
    (((i_row = 0 ∨ i_row = bb.size - 1) ∧ (j_col = 0 ∨ j_col = bb.size - 1)) →
        (nearestNeighborData bb i_row j_col).length = 3) ∧
    ((((i_row = 0 ∨ i_row = bb.size - 1) ∧ ¬(j_col = 0 ∨ j_col = bb.size - 1)) ∨
      (¬(i_row = 0 ∨ i_row = bb.size - 1) ∧ (j_col = 0 ∨ j_col = bb.size - 1))) →
        (nearestNeighborData bb i_row j_col).length = 5) ∧
    ((¬(i_row = 0 ∨ i_row = bb.size - 1) ∧ ¬(j_col = 0 ∨ j_col = bb.size - 1)) →
        (nearestNeighborData bb i_row j_col).length = 8) := by
  by_cases h1 : 0 < i_row <;> by_cases h2 : i_row < bb.size - 1 <;>
    by_cases h3 : 0 < j_col <;> by_cases h4 : j_col < bb.size - 1 <;>
      simp [nearestNeighborData, buildNeighborMap, h1, h2, h3, h4] <;>
      omega

/-- Witness for C4: on a concrete 3×3 board, (0,0) has 3 neighbors, (0,1)
has 5 and (1,1) has 8. -/
theorem c4_neighbor_counts_witness :
    (nearestNeighborData demoBoard3 0 0).length = 3 ∧
    (nearestNeighborData demoBoard3 0 1).length = 5 ∧
    (nearestNeighborData demoBoard3 1 1).length = 8 :=
  ⟨(c4_neighbor_counts demoBoard3 0 0 (by decide) (by decide) (by decide)).1 (by decide),
   (c4_neighbor_counts demoBoard3 0 1 (by decide) (by decide) (by decide)).2.1 (by decide),
   (c4_neighbor_counts demoBoard3 1 1 (by decide) (by decide) (by decide)).2.2 (by decide)⟩

/-- Helper for C9: the inner `enumerate` scan of one row produces the same
list as mapping the row-major positions of that row and filtering them by the
letter at the cell. -/
theorem row_scan_eq_filter (g : List (List Char)) (letter : Char) (i : Nat)
    (row : List Char) (hir : g[i]? = some row) :
    ∀ (l : List (Nat × Char)), (∀ jc ∈ l, row[jc.1]? = some jc.2) →
      l.filterMap (fun jc => if jc.2 = letter then some (i, jc.1) else none)
        = (l.map (fun jc => (i, jc.1))).filter
            (fun p => decide (cellAt g p = some letter)) := by
  intro l
  induction l with
  | nil => intro _; rfl
  | cons jc l ih =>
    intro hall
    have hjc := hall jc (by simp)
    have hcell : cellAt g (i, jc.1) = some jc.2 := by simp [cellAt, hir, hjc]
    have ihl := ih (fun x hx => hall x (by simp [hx]))
    by_cases h : jc.2 = letter
    · simp [h, hcell, ihl]
    · simp [h, hcell, ihl]

/-- Helper for C9: a position is listed by the row-major scan iff it is an
in-bounds cell of the grid. -/
theorem mem_rowMajorPositions (g : List (List Char)) (p : Nat × Nat) :
    p ∈ rowMajorPositions g ↔ ∃ c, cellAt g p = some c := by
  rcases p with ⟨i, j⟩
  unfold rowMajorPositions cellAt
  constructor
  · intro hmem
    rw [List.mem_flatMap] at hmem
    obtain ⟨ir, hir, hmap⟩ := hmem
    rw [List.mem_map] at hmap
    obtain ⟨jc, hjc, hpair⟩ := hmap
    rw [List.mem_enum_iff_getElem?] at hir hjc
    cases hpair
    exact ⟨jc.2, by simp [hir, hjc]⟩
  · rintro ⟨c, hc⟩
    rcases hrow : g[i]? with _ | row
    · simp [hrow] at hc
    · rw [hrow] at hc
      simp only [Option.bind_some] at hc
      rw [List.mem_flatMap]
      refine ⟨(i, row), List.mem_enum_iff_getElem?.mpr (by simpa using hrow), ?_⟩
      rw [List.mem_map]
      exact ⟨(j, c), List.mem_enum_iff_getElem?.mpr (by simpa using hc), rfl⟩

/-- Claim C9: `positions_for_letter` returns exactly the positions whose cell
holds the letter, in row-major scan order (it equals the row-major postion
enumeration filtered by the letter test), and it is empty iff the letter does
not occur on the board. -/
theorem c9_positions_row_major (bb : BoggleBoard) (letter : Char) :
    positionsForLetter bb letter
        = (rowMajorPositions bb.board).filter
            (fun p => decide (cellAt bb.board p = some letter)) ∧
    (∀ p, p ∈ positionsForLetter bb letter ↔ cellAt bb.board p = some letter) ∧
    (positionsForLetter bb letter = [] ↔
      ∀ p, cellAt bb.board p ≠ some letter) := by
  have hmain : positionsForLetter bb letter
      = (rowMajorPositions bb.board).filter
          (fun p => decide (cellAt bb.board p = some letter)) := by
    unfold positionsForLetter rowMajorPositions
    rw [List.filter_flatMap]
    apply List.flatMap_congr
    rintro ⟨i, row⟩ hir
    rw [List.mem_enum_iff_getElem?] at hir
    exact row_scan_eq_filter bb.board letter i row (by simpa using hir) row.enum
      (fun jc hjc => by simpa using List.mem_enum_iff_getElem?.mp hjc)
  have hmemiff : ∀ p, p ∈ positionsForLetter bb letter ↔ cellAt bb.board p = some letter := by
    intro p
    rw [hmain, List.mem_filter]
    constructor
    · intro h
      simpa using h.2
    · intro h
      exact ⟨(mem_rowMajorPositions bb.board p).mpr ⟨letter, h⟩, by simpa using h⟩
  refine ⟨hmain, hmemiff, ?_⟩
  rw [List.eq_nil_iff_forall_not_mem]
  constructor
  · intro h p
    exact fun hc => h p ((hmemiff p).mpr hc)
  · intro h p
    exact fun hm => h p ((hmemiff p).mp hm)

/-- Witness for C9 (instantiating the membership characterization on the
scenario grid): (1,0) is a position of `o`, and the position list of the
absent letter `q` is empty. -/
theorem c9_positions_row_major_witness :
    cellAt scenarioBoard.board (1, 0) = some 'o' ∧
    positionsForLetter scenarioBoard 'o' = [(1, 0)] :=
  ⟨((c9_positions_row_major scenarioBoard 'o').2.1 (1, 0)).mp (by decide), by decide⟩

/-- Helper for C5: the indices `range(0, s*m, s)` produced by the chunking
comprehension are the multiples of `s` below `s*m`. -/
theorem range_filter_mod (s : Nat) (hs : 0 < s) :
    ∀ m : Nat, (List.range (s * m)).filter (fun i => i % s == 0)
      = (List.range m).map (fun k => k * s) := by
  intro m
  induction m with
  | zero => simp
  | succ m ih =>
    have hmul : s * (m + 1) = s * m + s := by ring
    rw [hmul, List.range_add, List.filter_append, ih, List.range_succ, List.map_append]
    congr 1
    rw [List.filter_map]
    have hfil : (List.range s).filter ((fun i => i % s == 0) ∘ (fun x => s * m + x))
        = [0] := by
      have hpt : ∀ x ∈ List.range s,
          ((fun i => i % s == 0) ∘ (fun x => s * m + x)) x = (x == 0) := by
        intro x hx
        rw [List.mem_range] at hx
        simp only [Function.comp]
        rw [Nat.mul_add_mod, Nat.mod_eq_of_lt hx]
      rw [List.filter_congr hpt]
      rcases s with _ | s'
      · omega
      · rw [List.range_succ_eq_map]
        simp
    rw [hfil]
    simp [Nat.mul_comm]

/-- Helper for C5: flattening the chunked rows recovers the letter list. -/
theorem flatten_chunks (s : Nat) (hs : 0 < s) :
    ∀ (m : Nat) (l : List Char), l.length = s * m →
      (((List.range m).map (fun k => k * s)).map
          (fun i => (l.drop i).take s)).flatten = l := by
  intro m
  induction m with
  | zero =>
    intro l hl
    have hnil : l = [] := List.length_eq_zero.mp (by simpa using hl)
    simp [hnil]
  | succ m ih =>
    intro l hl
    have hdl : (l.drop s).length = s * m := by
      have hmul : s * (m + 1) = s * m + s := by ring
      rw [List.length_drop, hl]
      omega
    have hstep :
        (((List.range (m + 1)).map (fun k => k * s)).map (fun i => (l.drop i).take s))
          = (l.take s) :: (((List.range m).map (fun k => k * s)).map
              (fun i => ((l.drop s).drop i).take s)) := by
      rw [List.range_succ_eq_map]
      simp only [List.map_cons, List.map_map]
      congr 1
      · simp
      · apply List.map_congr_left
        intro k _
        simp only [Function.comp]
        rw [List.drop_drop]
        congr 2
        simp [Nat.succ_mul]
        ring
    rw [hstep, List.flatten_cons, ih (l.drop s) hdl, List.take_append_drop]

/-- Helper for C5: for a positive size and a letter list of length size²,
`build_board` yields exactly `size` rows of `size` columns whose
concatenation is the letter list. -/
theorem buildBoard_shape (N : Int) (hpos : 0 < N) (l : List Char)
    (hl : l.length = N.toNat * N.toNat) :
    (buildBoard l N).length = N.toNat ∧
    (∀ row ∈ buildBoard l N, row.length = N.toNat) ∧
    (buildBoard l N).flatten = l := by
  have hs0 : 0 < N.toNat := by omega
  have hboard : buildBoard l N
      = ((List.range N.toNat).map (fun k => k * N.toNat)).map
          (fun i => (l.drop i).take N.toNat) := by
    unfold buildBoard
    rw [if_neg (by omega), hl]
    dsimp only
    rw [range_filter_mod N.toNat hs0 N.toNat]
  refine ⟨by rw [hboard]; simp, ?_, ?_⟩
  · intro row hrow
    rw [hboard, List.map_map, List.mem_map] at hrow
    obtain ⟨k, hk, hrow⟩ := hrow
    rw [List.mem_range] at hk
    subst hrow
    simp only [Function.comp]
    have hks : k * N.toNat + N.toNat ≤ N.toNat * N.toNat := by
      have h := Nat.mul_le_mul_right N.toNat (show k + 1 ≤ N.toNat from hk)
      calc k * N.toNat + N.toNat = (k + 1) * N.toNat := by ring
        _ ≤ N.toNat * N.toNat := h
    rw [List.length_take, List.length_drop, hl, Nat.min_eq_left (by omega)]
  · rw [hboard]
    exact flatten_chunks N.toNat hs0 N.toNat l hl

/-- Helper for C5: the exact failure condition of Python's `isalpha()`. -/
theorem pyIsAlpha_eq_false_iff (s : String) :
    pyIsAlpha s = false ↔ s = "" ∨ ∃ c ∈ s.toList, ¬ c.isAlpha := by
  constructor
  · intro h
    by_cases he : s = ""
    · exact Or.inl he
    · right
      have hne : s.isEmpty = false := by
        rcases Bool.eq_false_or_eq_true s.isEmpty with hb | hb
        · exact absurd ((String.isEmpty_iff s).mp hb) he
        · exact hb
      unfold pyIsAlpha at h
      rw [hne] at h
      simp only [Bool.not_false, Bool.true_and] at h
      have h2 : ¬ (∀ c ∈ s.toList, c.isAlpha = true) := by
        rw [← List.all_eq_true, h]
        simp
      push_neg at h2
      obtain ⟨c, hc, hna⟩ := h2
      exact ⟨c, hc, hna⟩
  · rintro (h | ⟨c, hc, hna⟩)
    · subst h
      decide
    · unfold pyIsAlpha
      have hall : s.toList.all (fun c => c.isAlpha) = false := by
        rcases Bool.eq_false_or_eq_true (s.toList.all (fun c => c.isAlpha)) with hb | hb
        · exact absurd (List.all_eq_true.mp hb c hc) hna
        · exact hb
      rw [hall, Bool.and_false]

/-- Helper for C5: the whole supplied-letters branch of `__init__`, for an
arbitrary effective size value `N`. -/
theorem c5core (N : Int) (s : String) (rnd : List Char)
    (res : Except InitError InitState)
    (hres : res = if !(pyIsAlpha s) then Except.error InitError.invalidChars
       else if (s.toList.length : Int) ≠ N ^ 2 then Except.error InitError.lengthMismatch
       else Except.ok ⟨N, buildLetterList (some s) rnd,
              buildBoard (buildLetterList (some s) rnd) N,
              String.mk (buildLetterList (some s) rnd)⟩) :
    ((∃ e, res = .error e) ↔
      (s = "" ∨ (∃ c ∈ s.toList, ¬ c.isAlpha) ∨ (s.toList.length : Int) ≠ N ^ 2)) ∧
    (∀ st, res = .ok st →
      st.size = N ∧ st.letter_list = s.toList ∧ st.letters = s ∧
      (0 < st.size →
        st.board.length = st.size.toNat ∧
        (∀ row ∈ st.board, row.length = st.size.toNat) ∧
        st.board.flatten = s.toList) ∧
      (st.size < 0 → st.board = [])) := by
  subst hres
  cases hA : pyIsAlpha s
  · rw [if_pos (by simp)]
    constructor
    · constructor
      · intro _
        rcases (pyIsAlpha_eq_false_iff s).mp hA with h | h
        · exact Or.inl h
        · exact Or.inr (Or.inl h)
      · intro _
        exact ⟨.invalidChars, rfl⟩
    · intro st hst
      cases hst
  · rw [if_neg (by simp)]
    have hcore := hA
    unfold pyIsAlpha at hcore
    rw [Bool.and_eq_true] at hcore
    have hs' : s ≠ "" := by
      intro heq
      have h1 := hcore.1
      rw [heq] at h1
      exact absurd h1 (by decide)
    have halpha : ∀ c ∈ s.toList, c.isAlpha := by
      intro c hc
      exact List.all_eq_true.mp hcore.2 c hc
    by_cases hL : (s.toList.length : Int) = N ^ 2
    · rw [if_neg (fun hne => hne hL)]
      have hll : buildLetterList (some s) rnd = s.toList := by
        simp [buildLetterList, hs']
      constructor
      · constructor
        · rintro ⟨e, he⟩
          cases he
        · rintro (h | h | h)
          · exact absurd h hs'
          · obtain ⟨c, hc, hna⟩ := h
            exact absurd (halpha c hc) hna
          · exact absurd hL h
      · intro st hst
        cases hst
        refine ⟨rfl, hll, ?_, ?_, ?_⟩
        · show String.mk (buildLetterList (some s) rnd) = s
          rw [hll]
          cases s
          rfl
        · intro hpos
          have hlen : s.toList.length = N.toNat * N.toNat := by
            have hNn : ((N.toNat : Int)) = N := Int.toNat_of_nonneg (le_of_lt hpos)
            have h2 : (s.toList.length : Int) = (N.toNat : Int) * (N.toNat : Int) := by
              rw [hNn, hL]
              ring
            exact_mod_cast h2
          show (buildBoard (buildLetterList (some s) rnd) N).length = N.toNat ∧ _ ∧ _
          rw [hll]
          exact buildBoard_shape N hpos s.toList hlen
        · intro hneg
          have hneg' : N < 0 := hneg
          show buildBoard (buildLetterList (some s) rnd) N = []
          unfold buildBoard
          rw [if_pos (by omega)]
    · rw [if_pos hL]
      constructor
      · constructor
        · intro _
          exact Or.inr (Or.inr hL)
        · intro _
          exact ⟨.lengthMismatch, rfl⟩
      · intro st hst
        cases hst

/-- Claim C5 (amended): construction with a supplied letter string raises
`InitError` iff the size argument is a non-integer, or the string is empty
(Python's `isalpha()` rejects the empty string), or it contains a
non-alphabetic character, or its length differs from size²; on every
successful construction the stored letter list is the supplied string and,
when the size is positive, the grid has exactly `size` rows of exactly `size`
columns holding the letters in row-major order (a negative size whose square
matches the length is accepted but produces an empty grid); on error no grid
is produced (the `Except.error` result carries no state). -/
theorem c5_init_validation (sizeArg : Option PySizeArg) (s : String) (rnd : List Char) :
    ((∃ e, boggleBoardInit sizeArg (some s) rnd = .error e) ↔
      (sizeArg = some .nonInt ∨ s = "" ∨ (∃ c ∈ s.toList, ¬ c.isAlpha) ∨
        (s.toList.length : Int) ≠ pySizeVal sizeArg ^ 2)) ∧
    (∀ st, boggleBoardInit sizeArg (some s) rnd = .ok st →
      st.size = pySizeVal sizeArg ∧ st.letter_list = s.toList ∧ st.letters = s ∧
      (0 < st.size →
        st.board.length = st.size.toNat ∧
        (∀ row ∈ st.board, row.length = st.size.toNat) ∧
        st.board.flatten = s.toList) ∧
      (st.size < 0 → st.board = [])) := by
  rcases sizeArg with _ | arg
  · have h := c5core (pySizeVal none) s rnd (boggleBoardInit none (some s) rnd) rfl
    refine ⟨?_, h.2⟩
    constructor
    · intro hx
      exact Or.inr (h.1.mp hx)
    · rintro (hx | hx)
      · exact absurd hx (by simp)
      · exact h.1.mpr hx
  · rcases arg with n | _
    · have h := c5core (pySizeVal (some (.int n))) s rnd
        (boggleBoardInit (some (.int n)) (some s) rnd) rfl
      refine ⟨?_, h.2⟩
      constructor
      · intro hx
        exact Or.inr (h.1.mp hx)
      · rintro (hx | hx)
        · exact absurd hx (by simp)
        · exact h.1.mpr hx
    · refine ⟨⟨fun _ => Or.inl rfl, fun _ => ⟨.invalidSize, rfl⟩⟩, ?_⟩
      intro st hst
      cases hst

/-- Counterexample for C5 as stated: with `size = -1` and letters `"a"`,
every character is alphabetic and the length 1 equals (−1)², so construction
succeeds — yet the produced grid is `[]`, not a fully populated grid with
`size` rows, refuting the claim's description of every valid input. -/
theorem c5_counterexample_negative_size :
    (∀ c ∈ ("a" : String).toList, c.isAlpha) ∧
    (("a" : String).toList.length : Int) = (-1 : Int) ^ 2 ∧
    boggleBoardInit (some (.int (-1))) (some "a") []
      = .ok ⟨-1, ['a'], [], "a"⟩ := by
  refine ⟨by decide, by decide, by decide⟩

/-- Witness for C5: size 2 with letters "abcd" passes validation and the
resulting grid is the 2×2 row-major chunking of the letters. -/
theorem c5_init_validation_witness :
    boggleBoardInit (some (.int 2)) (some "abcd") []
        = .ok ⟨2, "abcd".toList, [['a','b'], ['c','d']], "abcd"⟩ ∧
    (⟨2, "abcd".toList, [['a','b'], ['c','d']], "abcd"⟩ : InitState).board.length = 2 ∧
    (∀ row ∈ (⟨2, "abcd".toList, [['a','b'], ['c','d']], "abcd"⟩ : InitState).board,
        row.length = 2) ∧
    (⟨2, "abcd".toList, [['a','b'], ['c','d']], "abcd"⟩ : InitState).board.flatten
        = "abcd".toList := by
  have h := (c5_init_validation (some (.int 2)) "abcd" []).2
      ⟨2, "abcd".toList, [['a','b'], ['c','d']], "abcd"⟩ (by decide)
  exact ⟨by decide, (h.2.2.2.1 (by decide)).1, (h.2.2.2.1 (by decide)).2.1,
    (h.2.2.2.1 (by decide)).2.2⟩
